import Mathlib

/-!
Shallow embedding of the isekaiz.py scheduling core.

The embedding follows `src/bot/task_manager.py` (the `Task` data class and
the `TaskManager` priority queue) and `src/bot/controller.py`
(`Controller.update_state`).  Python floats (millisecond timestamps) are
modelled as rationals, Python ints as `Int`/`Nat`, the `_task_type_counter`
dict as a total function `TaskType → Nat` (an absent key behaves exactly
like the value 0 in every read the code performs), and the effectful parts
(the opaque task action, the optional completion callback, the sampled
clock) as explicit oracles passed to the execution functions.  Python's
`list.sort`, a stable ascending sort driven by `Task.__lt__` (comparison of
`rank`), is modelled by a stable insertion sort; a stable sort under a
total preorder has a unique result, so the choice of algorithm is
immaterial.
-/

namespace Isekaiz

/-- The `TaskType` enumeration of `task_manager.py`. -/
inductive TaskType where
  | VERIFY
  | EVB
  | EVP
  | TREASURE
  | INV
  | FOOD
  | RETAINER
  | NB
  | NBW
  | NP
  | NPW
  | CMD
deriving DecidableEq, Repr, Fintype

/-- Per-type configuration: `TaskSetting(rank=..., limit=...)`. -/
structure TaskSetting where
  rank : Int
  limit : Nat
deriving DecidableEq, Repr

/-- The `TASK_SETTINGS` dict.  It is a Python dict, hence partial in
principle; it has an entry for every enum member. -/
def TASK_SETTINGS : TaskType → Option TaskSetting
  | .VERIFY => some ⟨-999, 999⟩
  | .CMD => some ⟨-998, 999⟩
  | .EVB => some ⟨2, 1⟩
  | .EVP => some ⟨2, 1⟩
  | .TREASURE => some ⟨1, 999⟩
  | .INV => some ⟨1, 2⟩
  | .FOOD => some ⟨1, 1⟩
  | .RETAINER => some ⟨1, 3⟩
  | .NB => some ⟨3, 1⟩
  | .NP => some ⟨3, 1⟩
  | .NBW => some ⟨4, 1⟩
  | .NPW => some ⟨4, 1⟩

/-- `get_default_rank`: the setting's rank, or 5 when the dict has no
entry. -/
def get_default_rank (t : TaskType) : Int :=
  match TASK_SETTINGS t with
  | some s => s.rank
  | none => 5

/-- `get_task_limit`: the setting's limit, or 1 when the dict has no
entry. -/
def get_task_limit (t : TaskType) : Nat :=
  match TASK_SETTINGS t with
  | some s => s.limit
  | none => 1

/-- The `Task` dataclass.  The opaque async callable `func` is modelled by
a numeric identifier resolved by the execution environment; `expire_at`
(a float of milliseconds) by a rational. -/
structure Task where
  func : Nat
  expire_at : ℚ
  info : String
  tag : TaskType
  rank : Int
  retry : Nat
deriving DecidableEq, Repr

/-- The dataclass constructor together with `Task.__post_init__`: a rank
equal to the field default 5 is treated as unspecified and replaced by the
tag's default rank. -/
def mkTask (func : Nat) (expire_at : ℚ) (info : String) (tag : TaskType)
    (rank : Int) (retry : Nat) : Task :=
  { func := func, expire_at := expire_at, info := info, tag := tag,
    rank := if rank = 5 then get_default_rank tag else rank,
    retry := retry }

/-- `Task.is_expired` with the sampled clock passed explicitly (the Python
default argument samples `time.time() * 1000`). -/
def Task.is_expired (t : Task) (time_now_ms : ℚ) : Bool :=
  decide (t.expire_at < time_now_ms)

/-- One application of priority aging to a single task (`task.rank -= 1`). -/
def ageTask (t : Task) : Task :=
  { t with rank := t.rank - 1 }

/-- `TaskManager._priority_aging`: decrement the rank of every queued
task. -/
def priority_aging (q : List Task) : List Task :=
  q.map ageTask

/-- Stable insertion of a task into a list, keeping it behind earlier
tasks of strictly smaller rank and ahead of later tasks of greater-or-equal
rank. -/
def insertTask (t : Task) : List Task → List Task
  | [] => [t]
  | x :: xs => if t.rank ≤ x.rank then t :: x :: xs else x :: insertTask t xs

/-- The model of `self._queue.sort()`: stable ascending sort by `rank`
(Python's `list.sort` is stable and uses `Task.__lt__`, which compares
ranks). -/
def sortTasks : List Task → List Task
  | [] => []
  | x :: xs => insertTask x (sortTasks xs)

/-- The mutable state of a `TaskManager`. `locked`/`running` model the
`asyncio.Lock` and the `_running` flag of the single-threaded cooperative
scheduler. -/
structure TaskManager where
  queue : List Task
  counter : TaskType → Nat
  last_execute_at : ℚ
  gap : ℚ
  bias : ℚ
  retry_count : Nat
  locked : Bool
  running : Bool

/-- `TaskManager.add_task`: reject when the per-type counter has reached
the type's limit, otherwise append and increment that type's counter. -/
def TaskManager.add_task (s : TaskManager) (t : Task) : Bool × TaskManager :=
  let current_count := s.counter t.tag
  if get_task_limit t.tag ≤ current_count then
    (false, s)
  else
    (true,
      { s with
        queue := s.queue ++ [t]
        counter := fun ty => if ty = t.tag then current_count + 1 else s.counter ty })

/-- `TaskManager.clear`: drop all tasks and reset every counter. -/
def TaskManager.clear (s : TaskManager) : TaskManager :=
  { s with queue := [], counter := fun _ => 0 }

/-- `TaskManager.remove_by_type`: drop all tasks of one type, zero its
counter, return the number removed. -/
def TaskManager.remove_by_type (s : TaskManager) (ty : TaskType) : Nat × TaskManager :=
  let newQueue := s.queue.filter (fun t => decide (¬ t.tag = ty))
  (s.queue.length - newQueue.length,
    { s with
      queue := newQueue
      counter := fun x => if x = ty then 0 else s.counter x })

/-- Execution environment: the semantics of the opaque task actions
(`func` identifier to outcome: a result value or a raised exception) and
the optional completion callback (which may itself raise). -/
structure Env (β : Type) where
  runAction : Nat → Except Unit β
  callback : Option (β → Except Unit Unit)

/-- The pop step of `_execute_next`: after sorting and aging, remove the
front task and decrement its type's counter
(`max(0, counter.get(tag, 1) - 1)`; with absent keys read as 0, this is
truncated subtraction on `Nat`). -/
def popState (s : TaskManager) (t0 : Task) (rest : List Task) : TaskManager :=
  { s with
    queue := priority_aging rest
    counter := fun ty => if ty = t0.tag then s.counter t0.tag - 1 else s.counter ty }

/-- The `try`/`except` block of `_execute_next` around the action and the
completion callback: on action success, `_last_execute_at` is first set to
the fresh clock sample and then the callback runs; any exception — raised
by the action or by the callback, both sit in the same `try` — lands in
the `except` branch, which re-enqueues the task through `add_task` with an
incremented retry counter while `retry < retry_count`, and otherwise
discards it. -/
def dispatchResult {β : Type} (env : Env β) (doneTime : ℚ) (task : Task)
    (s1 : TaskManager) : TaskManager :=
  match env.runAction task.func with
  | .ok b =>
    let s2 : TaskManager := { s1 with last_execute_at := doneTime }
    match env.callback with
    | none => s2
    | some cb =>
      match cb b with
      | .ok _ => s2
      | .error _ =>
        if task.retry < s1.retry_count then
          (s2.add_task { task with retry := task.retry + 1 }).2
        else
          s2
  | .error _ =>
    if task.retry < s1.retry_count then
      (s1.add_task { task with retry := task.retry + 1 }).2
    else
      s1

/-- The loop of `TaskManager._execute_next`.  `times k` is the value
`time.time() * 1000` sampled at loop iteration `k`; `doneTime` is the
clock sample taken right after a successful action (`self._last_execute_at
= time.time() * 1000`).  The returned list records the tasks whose action
was invoked (at most one, since the loop breaks after a dispatch).  Fuel
bounds the iteration count; the wrapper passes the queue length, which is
exact because every iteration removes one task and only a dispatch (which
breaks the loop) can re-add one.  The two expiry checks skip the task and
restart the loop (`continue`); the pacing/jitter sleeps between them and
the dispatch have no effect on the modelled state. -/
def executeNextAux {β : Type} (env : Env β) (times : Nat → ℚ) (doneTime : ℚ) :
    Nat → Nat → TaskManager → TaskManager × List Task
  | 0, _, s => (s, [])
  | fuel + 1, k, s =>
    match sortTasks s.queue with
    | [] => (s, [])
    | t0 :: rest =>
      let task := ageTask t0
      let s1 := popState s t0 rest
      if task.is_expired (times k) then
        executeNextAux env times doneTime fuel (k + 1) s1
      else if task.is_expired (s.last_execute_at + s.gap + s.bias / 2) then
        executeNextAux env times doneTime fuel (k + 1) s1
      else
        (dispatchResult env doneTime task s1, [task])

/-- `TaskManager._execute_next`: run the loop with fuel equal to the queue
length. -/
def executeNext {β : Type} (env : Env β) (times : Nat → ℚ) (doneTime : ℚ)
    (s : TaskManager) : TaskManager × List Task :=
  executeNextAux env times doneTime s.queue.length 0 s

/-- `TaskManager.check_and_execute`: return immediately when the lock is
held, otherwise run one cycle under the lock with `_running` set. -/
def check_and_execute {β : Type} (env : Env β) (times : Nat → ℚ) (doneTime : ℚ)
    (s : TaskManager) : TaskManager × List Task :=
  if s.locked then
    (s, [])
  else
    let s0 : TaskManager := { s with locked := true, running := true }
    let r := executeNext env times doneTime s0
    ({ r.1 with locked := false, running := false }, r.2)

/-- Repeated scheduling cycles.  Cycle number `j` samples its loop clocks
from `times j` and its post-execution clock from `dts j`; the dispatch
logs of all cycles are concatenated. -/
def runCyclesFrom {β : Type} (env : Env β) (times : Nat → Nat → ℚ) (dts : Nat → ℚ) :
    Nat → Nat → TaskManager → TaskManager × List Task
  | _, 0, s => (s, [])
  | j, n + 1, s =>
    let r1 := check_and_execute env (times j) (dts j) s
    let r2 := runCyclesFrom env times dts (j + 1) n r1.1
    (r2.1, r1.2 ++ r2.2)

/-- Run `n` scheduling cycles starting from cycle number 0. -/
def runCycles {β : Type} (env : Env β) (times : Nat → Nat → ℚ) (dts : Nat → ℚ)
    (n : Nat) (s : TaskManager) : TaskManager × List Task :=
  runCyclesFrom env times dts 0 n s

/-- The `BotState` enumeration of `event_manager.py` (value-identical to
`PlayerState`). -/
inductive BotState where
  | INIT
  | RUNNING
  | DEFEATED
  | BLOCKED
  | BANNED
  | STOPPED
deriving DecidableEq, Repr

/-- The part of `Controller` state that `update_state` touches:
`_current_state` (initially `None`), the player's state
(`PlayerState(new_state.value)` maps a `BotState` to the value-identical
`PlayerState`), and a log of the emits scheduled by
`asyncio.create_task(self.event_manager.emit(new_state))`. -/
structure Controller where
  current_state : Option BotState
  player_state : BotState
  emitted : List BotState
deriving DecidableEq, Repr

/-- `Controller.update_state`: mutate and emit only when the requested
state differs from `_current_state`. -/
def Controller.update_state (c : Controller) (new_state : BotState) : Controller :=
  if c.current_state ≠ some new_state then
    { current_state := some new_state
      player_state := new_state
      emitted := c.emitted ++ [new_state] }
  else
    c

/-- The documented scheduler invariant: each per-type counter equals the
number of tasks of that type currently in the pending queue. -/
def counterInv (s : TaskManager) : Prop :=
  ∀ ty : TaskType, s.counter ty = s.queue.countP (fun t => decide (t.tag = ty))

theorem insertTask_perm (t : Task) (l : List Task) :
    (insertTask t l).Perm (t :: l) := by
  induction l with
  | nil => exact List.Perm.refl _
  | cons x xs ih =>
      by_cases h : t.rank ≤ x.rank
      · simp only [insertTask, if_pos h]
        exact List.Perm.refl _
      · simp only [insertTask, if_neg h]
        exact (ih.cons x).trans (List.Perm.swap t x xs)

theorem sortTasks_perm (l : List Task) : (sortTasks l).Perm l := by
  induction l with
  | nil => exact List.Perm.refl _
  | cons x xs ih => exact (insertTask_perm x (sortTasks xs)).trans (ih.cons x)

theorem insertTask_pairwise (t : Task) (l : List Task)
    (hl : l.Pairwise (fun a b => a.rank ≤ b.rank)) :
    (insertTask t l).Pairwise (fun a b => a.rank ≤ b.rank) := by
  induction l with
  | nil => simp [insertTask]
  | cons x xs ih =>
      rcases List.pairwise_cons.mp hl with ⟨hx, hxs⟩
      by_cases h : t.rank ≤ x.rank
      · simp only [insertTask, if_pos h]
        refine List.pairwise_cons.mpr ⟨?_, hl⟩
        intro u hu
        rcases List.mem_cons.mp hu with rfl | hu'
        · exact h
        · exact le_trans h (hx u hu')
      · simp only [insertTask, if_neg h]
        refine List.pairwise_cons.mpr ⟨?_, ih hxs⟩
        intro u hu
        rcases List.mem_cons.mp ((insertTask_perm t xs).mem_iff.mp hu) with rfl | hu'
        · exact le_of_not_le h
        · exact hx u hu'

theorem sortTasks_pairwise (l : List Task) :
    (sortTasks l).Pairwise (fun a b => a.rank ≤ b.rank) := by
  induction l with
  | nil => simp [sortTasks]
  | cons x xs ih => exact insertTask_pairwise x (sortTasks xs) ih

theorem sortTasks_head_min (l : List Task) (t0 : Task) (rest : List Task)
    (h : sortTasks l = t0 :: rest) : ∀ u ∈ l, t0.rank ≤ u.rank := by
  intro u hu
  have hu' : u ∈ t0 :: rest := h ▸ (sortTasks_perm l).mem_iff.mpr hu
  rcases List.mem_cons.mp hu' with rfl | hu'
  · exact le_refl _
  · have hp := sortTasks_pairwise l
    rw [h] at hp
    exact (List.pairwise_cons.mp hp).1 u hu'

theorem insertTask_filter_rank (t : Task) (l : List Task) (r : Int) :
    (insertTask t l).filter (fun u => decide (u.rank = r)) =
      if t.rank = r then t :: l.filter (fun u => decide (u.rank = r))
      else l.filter (fun u => decide (u.rank = r)) := by
  induction l with
  | nil => by_cases ht : t.rank = r <;> simp [insertTask, ht]
  | cons x xs ih =>
      by_cases h : t.rank ≤ x.rank
      · simp only [insertTask, if_pos h]
        by_cases ht : t.rank = r <;> simp [List.filter_cons, ht]
      · simp only [insertTask, if_neg h]
        by_cases ht : t.rank = r
        · have hx : ¬ x.rank = r := fun hx => h ((ht.trans hx.symm).le)
          simp [List.filter_cons, hx, ih, ht]
        · by_cases hx : x.rank = r <;> simp [List.filter_cons, hx, ih, ht]

theorem sortTasks_stable (l : List Task) (r : Int) :
    (sortTasks l).filter (fun u => decide (u.rank = r)) =
      l.filter (fun u => decide (u.rank = r)) := by
  induction l with
  | nil => rfl
  | cons x xs ih =>
      by_cases hx : x.rank = r <;>
        simp [sortTasks, insertTask_filter_rank, hx, List.filter_cons, ih]

/-- C7: selection is a stable ascending sort by rank followed by popping
the front, so the popped task has minimal rank in the pending queue; with
two queued tasks of distinct ranks the lower-rank one is popped,
regardless of enqueue order, and if it passes both expiry checks it is the
task dispatched by the cycle. -/
theorem selection_pops_min_rank {β : Type} (env : Env β) (times : Nat → ℚ)
    (doneTime : ℚ) (fuel k : Nat) (s : TaskManager) (a b : Task)
    (ha : a ∈ s.queue) (_hb : b ∈ s.queue) (hab : a.rank < b.rank) :
    ∃ t0 rest, sortTasks s.queue = t0 :: rest ∧
      (∀ u ∈ s.queue, t0.rank ≤ u.rank) ∧
      t0.rank ≤ a.rank ∧ t0 ≠ b ∧
      (sortTasks s.queue).Perm s.queue ∧
      (sortTasks s.queue).Pairwise (fun x y => x.rank ≤ y.rank) ∧
      (∀ r : Int, (sortTasks s.queue).filter (fun u => decide (u.rank = r)) =
        s.queue.filter (fun u => decide (u.rank = r))) ∧
      ((ageTask t0).is_expired (times k) = false →
        (ageTask t0).is_expired (s.last_execute_at + s.gap + s.bias / 2) = false →
        (executeNextAux env times doneTime (fuel + 1) k s).2 = [ageTask t0]) := by
  obtain ⟨t0, rest, hsort⟩ : ∃ t0 rest, sortTasks s.queue = t0 :: rest := by
    rcases hq : sortTasks s.queue with _ | ⟨t0, rest⟩
    · exfalso
      have hmem : a ∈ sortTasks s.queue := (sortTasks_perm s.queue).mem_iff.mpr ha
      rw [hq] at hmem
      exact absurd hmem (List.not_mem_nil a)
    · exact ⟨t0, rest, rfl⟩
  have hmin := sortTasks_head_min s.queue t0 rest hsort
  refine ⟨t0, rest, hsort, hmin, hmin a ha, ?_, sortTasks_perm _, sortTasks_pairwise _,
    fun r => sortTasks_stable _ r, ?_⟩
  · intro hEq
    rw [hEq] at hmin
    exact absurd (hmin a ha) (not_le.mpr hab)
  · intro h1 h2
    simp [executeNextAux, hsort, h1, h2]

/-- C7 witness: with a NewBattleWindow task (rank 4) enqueued before a
Verify task (rank -999), the sort puts a minimal-rank task first, its rank
is at most -999 and it is not the NewBattleWindow task. -/
theorem selection_pops_min_rank_witness :
    ∃ t0 rest,
      sortTasks [⟨1, 1000, "", .NBW, 4, 0⟩, ⟨0, 1000, "", .VERIFY, -999, 0⟩] =
        t0 :: rest ∧
      t0.rank ≤ (-999 : Int) ∧ t0 ≠ ⟨1, 1000, "", .NBW, 4, 0⟩ := by
  obtain ⟨t0, rest, hsort, hmin, hle, hne, -⟩ :=
    selection_pops_min_rank (β := Unit) ⟨fun _ => .ok (), none⟩ (fun _ => 0) 0 1 0
      ⟨[⟨1, 1000, "", .NBW, 4, 0⟩, ⟨0, 1000, "", .VERIFY, -999, 0⟩],
        fun _ => 0, 0, 0, 0, 2, false, false⟩
      ⟨0, 1000, "", .VERIFY, -999, 0⟩ ⟨1, 1000, "", .NBW, 4, 0⟩
      (by decide) (by decide) (by decide)
  exact ⟨t0, rest, hsort, hle, hne⟩

theorem priority_aging_map_func (l : List Task) :
    (priority_aging l).map Task.func = l.map Task.func := by
  simp [priority_aging, ageTask, List.map_map]

theorem add_task_queue_cases (s : TaskManager) (t : Task) :
    (s.add_task t).2.queue = s.queue ∨ (s.add_task t).2.queue = s.queue ++ [t] := by
  by_cases h : get_task_limit t.tag ≤ s.counter t.tag <;>
    simp [TaskManager.add_task, h]

theorem dispatchResult_queue_cases {β : Type} (env : Env β) (doneTime : ℚ)
    (task : Task) (s1 : TaskManager) :
    (dispatchResult env doneTime task s1).queue = s1.queue ∨
    (dispatchResult env doneTime task s1).queue =
      s1.queue ++ [{ task with retry := task.retry + 1 }] := by
  unfold dispatchResult
  rcases env.runAction task.func with e | b
  · dsimp only
    split_ifs
    · exact add_task_queue_cases s1 _
    · exact Or.inl rfl
  · rcases env.callback with - | cb
    · exact Or.inl rfl
    · dsimp only
      rcases cb b with - | -
      · dsimp only
        split_ifs
        · exact add_task_queue_cases _ _
        · exact Or.inl rfl
      · exact Or.inl rfl

theorem dispatched_func_mem {β : Type} (env : Env β) (times : Nat → ℚ)
    (doneTime : ℚ) :
    ∀ fuel k s t, t ∈ (executeNextAux env times doneTime fuel k s).2 →
      t.func ∈ s.queue.map Task.func := by
  intro fuel
  induction fuel with
  | zero =>
      intro k s t ht
      simp [executeNextAux] at ht
  | succ n ih =>
      intro k s t ht
      rcases hq : sortTasks s.queue with _ | ⟨t0, rest⟩
      · simp [executeNextAux, hq] at ht
      · have hperm : (t0 :: rest).map Task.func = (sortTasks s.queue).map Task.func := by
          rw [hq]
        have hmemq : ∀ u, u ∈ (t0 :: rest).map Task.func → u ∈ s.queue.map Task.func := by
          intro u hu
          exact ((sortTasks_perm s.queue).map Task.func).mem_iff.mp (hperm ▸ hu)
        simp only [executeNextAux, hq] at ht
        split_ifs at ht with h1 h2
        · have hrec := ih (k + 1) (popState s t0 rest) t ht
          have hq1 : (popState s t0 rest).queue.map Task.func = rest.map Task.func := by
            show (priority_aging rest).map Task.func = rest.map Task.func
            exact priority_aging_map_func rest
          rw [hq1] at hrec
          exact hmemq _ (List.mem_cons_of_mem _ hrec)
        · have hrec := ih (k + 1) (popState s t0 rest) t ht
          have hq1 : (popState s t0 rest).queue.map Task.func = rest.map Task.func := by
            show (priority_aging rest).map Task.func = rest.map Task.func
            exact priority_aging_map_func rest
          rw [hq1] at hrec
          exact hmemq _ (List.mem_cons_of_mem _ hrec)
        · have hte : t = ageTask t0 := by simpa using ht
          subst hte
          exact hmemq _ (by simp [ageTask])

/-- C6: a popped task whose `expire_at` is before the sampled current
time, or before the projected execution time
`last_execute_at + gap + bias / 2`, is discarded: the cycle continues as
the plain loop restart on the remaining tasks (selection restarts in the
same cycle), the queue is one element shorter, and — when no other queued
task shares its action — its action is never invoked during the cycle, so
it can never reach the retry path. -/
theorem expired_task_discarded {β : Type} (env : Env β) (times : Nat → ℚ)
    (doneTime : ℚ) (fuel k : Nat) (s : TaskManager) (t0 : Task) (rest : List Task)
    (hsort : sortTasks s.queue = t0 :: rest)
    (hexp : (ageTask t0).is_expired (times k) = true ∨
      ((ageTask t0).is_expired (times k) = false ∧
        (ageTask t0).is_expired (s.last_execute_at + s.gap + s.bias / 2) = true)) :
    executeNextAux env times doneTime (fuel + 1) k s =
      executeNextAux env times doneTime fuel (k + 1) (popState s t0 rest) ∧
    (popState s t0 rest).queue.length + 1 = s.queue.length ∧
    (t0.func ∉ rest.map Task.func →
      t0.func ∉ (executeNextAux env times doneTime (fuel + 1) k s).2.map Task.func) := by
  have hstep : executeNextAux env times doneTime (fuel + 1) k s =
      executeNextAux env times doneTime fuel (k + 1) (popState s t0 rest) := by
    rcases hexp with h1 | ⟨h1, h2⟩
    · simp [executeNextAux, hsort, h1]
    · simp [executeNextAux, hsort, h1, h2]
  have hlen : (popState s t0 rest).queue.length + 1 = s.queue.length := by
    have : (sortTasks s.queue).length = s.queue.length :=
      (sortTasks_perm s.queue).length_eq
    rw [hsort] at this
    simpa [popState, priority_aging] using this
  refine ⟨hstep, hlen, ?_⟩
  intro hnot hmem
  rw [hstep] at hmem
  rcases List.mem_map.mp hmem with ⟨u, hu, hfu⟩
  have := dispatched_func_mem env times doneTime fuel (k + 1) (popState s t0 rest) u hu
  have hq1 : (popState s t0 rest).queue.map Task.func = rest.map Task.func := by
    show (priority_aging rest).map Task.func = rest.map Task.func
    exact priority_aging_map_func rest
  rw [hq1, hfu] at this
  exact hnot this

/-- C6 witness: a single Command task with `expire_at = 50` against clock
sample 100 is discarded by one cycle call — the hypotheses hold and the
cycle dispatches nothing. -/
theorem expired_task_discarded_witness :
    sortTasks [⟨0, 50, "", .CMD, -998, 0⟩] = ⟨0, 50, "", .CMD, -998, 0⟩ :: [] ∧
    Task.is_expired (ageTask ⟨0, 50, "", .CMD, -998, 0⟩) 100 = true ∧
    (executeNextAux (β := Unit) ⟨fun _ => .ok (), none⟩ (fun _ => 100) 0 1 0
      ⟨[⟨0, 50, "", .CMD, -998, 0⟩], fun ty => if ty = .CMD then 1 else 0,
        0, 2000, 3000, 2, false, false⟩).2 = [] := by
  refine ⟨by decide, by decide, ?_⟩
  have h := expired_task_discarded (β := Unit) ⟨fun _ => .ok (), none⟩ (fun _ => 100) 0 0 0
    ⟨[⟨0, 50, "", .CMD, -998, 0⟩], fun ty => if ty = .CMD then 1 else 0,
      0, 2000, 3000, 2, false, false⟩
    ⟨0, 50, "", .CMD, -998, 0⟩ [] (by decide) (Or.inl (by decide))
  rw [h.1]
  rfl

/-- C2 (amended): every selection iteration decrements the rank of each
pending task by exactly 1, so in a cycle whose first popped task passes
both expiry checks (no expiry discard) the tasks left in the queue are
exactly the unselected ones aged once — their ranks drop by exactly 1 —
possibly followed by the re-enqueued selected task; across N such
discard-free cycles an unselected task's rank drops by exactly N, but a
cycle performing expiry discards ages the remaining tasks once more per
discarded task. -/
theorem aging_per_iteration {β : Type} (env : Env β) (times : Nat → ℚ)
    (doneTime : ℚ) (fuel k : Nat) (s : TaskManager) (t0 : Task) (rest : List Task)
    (hsort : sortTasks s.queue = t0 :: rest)
    (h1 : (ageTask t0).is_expired (times k) = false)
    (h2 : (ageTask t0).is_expired (s.last_execute_at + s.gap + s.bias / 2) = false) :
    (∀ t : Task, (ageTask t).rank = t.rank - 1) ∧
    ((executeNextAux env times doneTime (fuel + 1) k s).1.queue = priority_aging rest ∨
      (executeNextAux env times doneTime (fuel + 1) k s).1.queue =
        priority_aging rest ++ [{ ageTask t0 with retry := t0.retry + 1 }]) ∧
    (∀ t ∈ rest, ageTask t ∈ (executeNextAux env times doneTime (fuel + 1) k s).1.queue) := by
  have hstep : executeNextAux env times doneTime (fuel + 1) k s =
      (dispatchResult env doneTime (ageTask t0) (popState s t0 rest), [ageTask t0]) := by
    simp [executeNextAux, hsort, h1, h2]
  have hq1 : (popState s t0 rest).queue = priority_aging rest := rfl
  have hcases := dispatchResult_queue_cases env doneTime (ageTask t0) (popState s t0 rest)
  rw [hq1] at hcases
  refine ⟨fun t => rfl, ?_, ?_⟩
  · rw [hstep]
    exact hcases
  · intro t ht
    rw [hstep]
    have hmem : ageTask t ∈ priority_aging rest := List.mem_map_of_mem ageTask ht
    rcases hcases with hc | hc <;> rw [hc]
    · exact hmem
    · exact List.mem_append_left _ hmem

/-- C2 witness: in a discard-free cycle on two fresh Command tasks the
unselected task remains queued with its rank decremented by exactly 1. -/
theorem aging_per_iteration_witness :
    ageTask ⟨2, 1000, "", .CMD, 2, 0⟩ ∈
      (executeNextAux (β := Unit) ⟨fun _ => .ok (), none⟩ (fun _ => 100) 200 2 0
        ⟨[⟨1, 1000, "", .CMD, 1, 0⟩, ⟨2, 1000, "", .CMD, 2, 0⟩],
          fun ty => if ty = .CMD then 2 else 0, 0, 0, 0, 2, false, false⟩).1.queue ∧
    (ageTask ⟨2, 1000, "", .CMD, 2, 0⟩).rank = 2 - 1 := by
  have h := aging_per_iteration (β := Unit) ⟨fun _ => .ok (), none⟩ (fun _ => 100) 200 1 0
    ⟨[⟨1, 1000, "", .CMD, 1, 0⟩, ⟨2, 1000, "", .CMD, 2, 0⟩],
      fun ty => if ty = .CMD then 2 else 0, 0, 0, 0, 2, false, false⟩
    ⟨1, 1000, "", .CMD, 1, 0⟩ [⟨2, 1000, "", .CMD, 2, 0⟩]
    (by decide) (by decide) (by norm_num [Task.is_expired, ageTask])
  exact ⟨h.2.2 _ (by decide), h.1 _⟩

/-- C2 counterexample: one cycle on the queue
[func 0 rank 0 expired, func 1 rank 1, func 2 rank 2] discards the expired
task and dispatches func 1, so the loop runs two iterations and the
remaining task (func 2) ends the single cycle with rank 0, not the rank
2 - 1 = 1 that an exactly-one-decrement-per-cycle law predicts. -/
theorem aging_counterexample :
    ((check_and_execute (β := Unit) ⟨fun _ => .ok (), none⟩ (fun _ => 100) 200
      ⟨[⟨0, 0, "", .CMD, 0, 0⟩, ⟨1, 10000, "", .CMD, 1, 0⟩, ⟨2, 10000, "", .CMD, 2, 0⟩],
        fun ty => if ty = .CMD then 3 else 0, 0, 0, 0, 2, false, false⟩).1.queue.map
      (fun t => (t.func, t.rank))) = [(2, 0)] ∧ (0 : Int) ≠ 2 - 1 := by
  refine ⟨?_, by decide⟩
  norm_num [check_and_execute, executeNext, executeNextAux, sortTasks, insertTask,
    popState, dispatchResult, priority_aging, ageTask, Task.is_expired]

/-- C1 (amended): a failure raised by the completion callback is caught
and logged, never propagated — but, because the callback runs inside the
same `try` block as the action, it lands in the retry path exactly like an
action failure: when `retry < retry_count` (and the category limit admits
the re-add) the task is re-enqueued with an incremented retry counter even
though its action completed without raising; `last_execute_at` has already
been updated by the successful action before the callback ran. -/
theorem callback_failure_triggers_retry {β : Type} (env : Env β) (times : Nat → ℚ)
    (doneTime : ℚ) (fuel k : Nat) (s : TaskManager) (t0 : Task) (rest : List Task)
    (b : β) (cb : β → Except Unit Unit)
    (hsort : sortTasks s.queue = t0 :: rest)
    (h1 : (ageTask t0).is_expired (times k) = false)
    (h2 : (ageTask t0).is_expired (s.last_execute_at + s.gap + s.bias / 2) = false)
    (hact : env.runAction t0.func = .ok b)
    (hcb : env.callback = some cb)
    (hfail : cb b = .error ())
    (hretry : t0.retry < s.retry_count)
    (hadm : s.counter t0.tag - 1 < get_task_limit t0.tag) :
    (executeNextAux env times doneTime (fuel + 1) k s).1.queue =
      priority_aging rest ++ [{ ageTask t0 with retry := t0.retry + 1 }] ∧
    (executeNextAux env times doneTime (fuel + 1) k s).1.last_execute_at = doneTime ∧
    (executeNextAux env times doneTime (fuel + 1) k s).2 = [ageTask t0] := by
  have hstep : executeNextAux env times doneTime (fuel + 1) k s =
      (dispatchResult env doneTime (ageTask t0) (popState s t0 rest), [ageTask t0]) := by
    simp [executeNextAux, hsort, h1, h2]
  have hfunc : (ageTask t0).func = t0.func := rfl
  have hnotle : ¬ get_task_limit (ageTask t0).tag ≤
      (popState s t0 rest).counter (ageTask t0).tag := by
    show ¬ get_task_limit t0.tag ≤ (if t0.tag = t0.tag then s.counter t0.tag - 1
      else s.counter t0.tag)
    simp only [if_pos rfl]
    exact not_le.mpr hadm
  have hdisp : dispatchResult env doneTime (ageTask t0) (popState s t0 rest) =
      (({ (popState s t0 rest) with last_execute_at := doneTime }).add_task
        { ageTask t0 with retry := t0.retry + 1 }).2 := by
    unfold dispatchResult
    rw [hfunc, hact, hcb]
    dsimp only
    rw [hfail]
    dsimp only
    simp only [if_pos (show (ageTask t0).retry < (popState s t0 rest).retry_count
      from hretry)]
    rfl
  have hnotle2 : ¬ get_task_limit t0.tag ≤ s.counter t0.tag - 1 := not_le.mpr hadm
  rw [hstep, hdisp]
  refine ⟨?_, ?_, rfl⟩
  · simp [TaskManager.add_task, popState, ageTask, priority_aging, hnotle2]
  · simp [TaskManager.add_task, popState, ageTask, priority_aging, hnotle2]

/-- C1 witness: a Command task with an always-succeeding action and an
always-raising completion callback is re-enqueued by the cycle with
retry 1, aged rank, and an updated `last_execute_at`. -/
theorem callback_failure_triggers_retry_witness :
    (executeNextAux (β := Unit) ⟨fun _ => .ok (), some fun _ => .error ()⟩
        (fun _ => 100) 200 1 0
        ⟨[⟨0, 10000, "", .CMD, 0, 0⟩], fun ty => if ty = .CMD then 1 else 0,
          0, 0, 0, 2, false, false⟩).1.queue =
      [⟨0, 10000, "", .CMD, -1, 1⟩] ∧
    (executeNextAux (β := Unit) ⟨fun _ => .ok (), some fun _ => .error ()⟩
        (fun _ => 100) 200 1 0
        ⟨[⟨0, 10000, "", .CMD, 0, 0⟩], fun ty => if ty = .CMD then 1 else 0,
          0, 0, 0, 2, false, false⟩).1.last_execute_at = 200 := by
  have h := callback_failure_triggers_retry (β := Unit)
    ⟨fun _ => .ok (), some fun _ => .error ()⟩ (fun _ => 100) 200 0 0
    ⟨[⟨0, 10000, "", .CMD, 0, 0⟩], fun ty => if ty = .CMD then 1 else 0,
      0, 0, 0, 2, false, false⟩
    ⟨0, 10000, "", .CMD, 0, 0⟩ [] () (fun _ => .error ())
    (by decide) (by decide)
    (by norm_num [Task.is_expired, ageTask])
    rfl rfl rfl (by decide) (by decide)
  exact ⟨h.1, h.2.1⟩

/-- C1 counterexample: with an always-succeeding action and a raising
completion callback, one cycle re-enqueues the task (retry count 1), so a
callback failure does not leave the pending queue unchanged and does
trigger the retry path. -/
theorem callback_failure_counterexample :
    ((check_and_execute (β := Unit) ⟨fun _ => .ok (), some fun _ => .error ()⟩
        (fun _ => 100) 200
        ⟨[⟨1, 10000, "", .CMD, 0, 0⟩], fun ty => if ty = .CMD then 1 else 0,
          0, 0, 0, 2, false, false⟩).1.queue.map (fun t => (t.func, t.retry))) =
      [(1, 1)] := by
  norm_num [check_and_execute, executeNext, executeNextAux, sortTasks, insertTask,
    popState, dispatchResult, priority_aging, ageTask, Task.is_expired,
    TaskManager.add_task, get_task_limit, TASK_SETTINGS]

/-- C3: if the task's category counter has reached the category limit,
`add_task` returns failure and mutates nothing; otherwise it returns
success, appends the task to the queue, increments exactly that category's
counter by one and leaves every other counter and the rest of the state
unchanged. -/
theorem add_task_admission (s : TaskManager) (t : Task) :
    (get_task_limit t.tag ≤ s.counter t.tag → s.add_task t = (false, s)) ∧
    (s.counter t.tag < get_task_limit t.tag →
      (s.add_task t).1 = true ∧
      (s.add_task t).2.queue = s.queue ++ [t] ∧
      (s.add_task t).2.counter t.tag = s.counter t.tag + 1 ∧
      (∀ ty, ty ≠ t.tag → (s.add_task t).2.counter ty = s.counter ty) ∧
      (s.add_task t).2.last_execute_at = s.last_execute_at ∧
      (s.add_task t).2.retry_count = s.retry_count) := by
  constructor
  · intro h
    simp [TaskManager.add_task, h]
  · intro h
    have h' : ¬ get_task_limit t.tag ≤ s.counter t.tag := not_le.mpr h
    simp [TaskManager.add_task, h']
    intro ty hty
    simp [hty]

/-- C3 witness: a FOOD task (limit 1) is admitted into an empty manager,
and a second one is rejected without mutation. -/
theorem add_task_admission_witness :
    (TaskManager.add_task
      ⟨[], fun _ => 0, 0, 2000, 3000, 2, false, false⟩
      ⟨0, 1000, "", .FOOD, 1, 0⟩).1 = true ∧
    TaskManager.add_task
      ⟨[⟨0, 1000, "", .FOOD, 1, 0⟩], fun ty => if ty = .FOOD then 1 else 0,
        0, 2000, 3000, 2, false, false⟩
      ⟨1, 1000, "", .FOOD, 1, 0⟩ =
      (false,
        ⟨[⟨0, 1000, "", .FOOD, 1, 0⟩], fun ty => if ty = .FOOD then 1 else 0,
          0, 2000, 3000, 2, false, false⟩) :=
  ⟨(add_task_admission _ _).2 (by decide) |>.1,
   (add_task_admission _ _).1 (by decide)⟩

/-- C10: constructing a task with the explicit rank 5 does not keep that
rank — 5 is the sentinel for "unspecified", so the rank becomes the tag's
static default, which differs from 5 for every tag; any other explicit
rank is kept as given, so no construction yields a task of rank 5. -/
theorem mkTask_rank_sentinel (f : Nat) (e : ℚ) (i : String) (tag : TaskType) :
    (mkTask f e i tag 5 0).rank = get_default_rank tag ∧
    get_default_rank tag ≠ 5 ∧
    (∀ rk : Int, rk ≠ 5 → ∀ r : Nat, (mkTask f e i tag rk r).rank = rk) ∧
    (∀ rk : Int, ∀ r : Nat, (mkTask f e i tag rk r).rank ≠ 5) := by
  refine ⟨by simp [mkTask], by cases tag <;> decide, ?_, ?_⟩
  · intro rk hrk r
    simp [mkTask, hrk]
  · intro rk r
    by_cases hrk : rk = 5
    · subst hrk
      simpa [mkTask] using by cases tag <;> decide
    · simp [mkTask, hrk]

/-- C10 witness: a CMD task built with explicit rank 5 gets rank -998
(the CMD default), while explicit rank 6 is kept. -/
theorem mkTask_rank_sentinel_witness :
    (mkTask 0 0 "" .CMD 5 0).rank = get_default_rank .CMD ∧
    (mkTask 0 0 "" .CMD 6 0).rank = 6 :=
  ⟨(mkTask_rank_sentinel 0 0 "" .CMD).1,
   (mkTask_rank_sentinel 0 0 "" .CMD).2.2.1 6 (by decide) 0⟩

/-- C8: `update_state` with a state equal to the controller's current
state is a no-op — the state is untouched, the player state is not
mutated and nothing is emitted; with a different state it records the new
state, mirrors it into the player state and emits exactly it. -/
theorem update_state_idempotent (c : Controller) (st : BotState) :
    (c.current_state = some st → c.update_state st = c) ∧
    (c.current_state ≠ some st →
      (c.update_state st).current_state = some st ∧
      (c.update_state st).player_state = st ∧
      (c.update_state st).emitted = c.emitted ++ [st]) := by
  constructor
  · intro h
    simp [Controller.update_state, h]
  · intro h
    simp [Controller.update_state, h]

/-- C8 witness: re-requesting the current state RUNNING changes nothing
and emits nothing; requesting BLOCKED from RUNNING records and emits it. -/
theorem update_state_idempotent_witness :
    Controller.update_state ⟨some .RUNNING, .RUNNING, [.RUNNING]⟩ .RUNNING =
      ⟨some .RUNNING, .RUNNING, [.RUNNING]⟩ ∧
    (Controller.update_state ⟨some .RUNNING, .RUNNING, [.RUNNING]⟩ .BLOCKED).emitted =
      [.RUNNING, .BLOCKED] :=
  ⟨(update_state_idempotent ⟨some .RUNNING, .RUNNING, [.RUNNING]⟩ .RUNNING).1 rfl,
   ((update_state_idempotent ⟨some .RUNNING, .RUNNING, [.RUNNING]⟩ .BLOCKED).2
      (by decide)).2.2⟩

theorem one_le_get_task_limit (ty : TaskType) : 1 ≤ get_task_limit ty := by
  cases ty <;> decide

theorem countP_priority_aging (l : List Task) (ty : TaskType) :
    (priority_aging l).countP (fun t => decide (t.tag = ty)) =
      l.countP (fun t => decide (t.tag = ty)) := by
  induction l with
  | nil => rfl
  | cons x xs ih =>
      show (ageTask x :: priority_aging xs).countP _ = _
      rw [List.countP_cons, List.countP_cons, ih]
      rfl

theorem add_task_counterInv (s : TaskManager) (t : Task) (h : counterInv s) :
    counterInv (s.add_task t).2 := by
  by_cases hle : get_task_limit t.tag ≤ s.counter t.tag
  · simpa [TaskManager.add_task, hle] using h
  · intro ty
    simp only [TaskManager.add_task, if_neg hle]
    by_cases hty : ty = t.tag
    · subst hty
      simp [List.countP_append, h t.tag]
    · have hne : ¬ t.tag = ty := fun e => hty e.symm
      simp [List.countP_append, h ty, hty, hne]

theorem popState_counterInv (s : TaskManager) (t0 : Task) (rest : List Task)
    (hsort : sortTasks s.queue = t0 :: rest) (h : counterInv s) :
    counterInv (popState s t0 rest) := by
  have hq : ∀ ty, s.queue.countP (fun t => decide (t.tag = ty)) =
      (t0 :: rest).countP (fun t => decide (t.tag = ty)) := by
    intro ty
    rw [← (sortTasks_perm s.queue).countP_eq (fun t => decide (t.tag = ty)), hsort]
  intro ty
  show (if ty = t0.tag then s.counter t0.tag - 1 else s.counter ty) =
    (priority_aging rest).countP (fun t => decide (t.tag = ty))
  rw [countP_priority_aging]
  by_cases hty : ty = t0.tag
  · subst hty
    rw [if_pos rfl, h t0.tag, hq t0.tag,
      List.countP_cons_of_pos _ _ (by simp)]
    omega
  · rw [if_neg hty, h ty, hq ty,
      List.countP_cons_of_neg _ _ (by simp; exact fun e => hty e.symm)]

theorem dispatchResult_counterInv {β : Type} (env : Env β) (doneTime : ℚ)
    (task : Task) (s1 : TaskManager) (h : counterInv s1) :
    counterInv (dispatchResult env doneTime task s1) := by
  unfold dispatchResult
  rcases env.runAction task.func with e | b
  · dsimp only
    split_ifs
    · exact add_task_counterInv s1 _ h
    · exact h
  · rcases env.callback with - | cb
    · exact h
    · dsimp only
      rcases cb b with - | -
      · dsimp only
        split_ifs
        · exact add_task_counterInv _ _ h
        · exact h
      · exact h

theorem executeNextAux_counterInv {β : Type} (env : Env β) (times : Nat → ℚ)
    (doneTime : ℚ) :
    ∀ fuel k s, counterInv s →
      counterInv (executeNextAux env times doneTime fuel k s).1 := by
  intro fuel
  induction fuel with
  | zero => intro k s h; exact h
  | succ n ih =>
      intro k s h
      rcases hq : sortTasks s.queue with _ | ⟨t0, rest⟩
      · simpa [executeNextAux, hq] using h
      · have hpop := popState_counterInv s t0 rest hq h
        simp only [executeNextAux, hq]
        split_ifs with h1 h2
        · exact ih (k + 1) _ hpop
        · exact ih (k + 1) _ hpop
        · exact dispatchResult_counterInv env doneTime _ _ hpop

theorem clear_counterInv (s : TaskManager) : counterInv s.clear := by
  intro ty
  simp [TaskManager.clear]

theorem remove_by_type_counterInv (s : TaskManager) (ty0 : TaskType)
    (h : counterInv s) : counterInv (s.remove_by_type ty0).2 := by
  intro ty
  show (if ty = ty0 then 0 else s.counter ty) =
    (s.queue.filter (fun t => decide (¬ t.tag = ty0))).countP
      (fun t => decide (t.tag = ty))
  rw [List.countP_filter]
  by_cases hty : ty = ty0
  · subst hty
    rw [if_pos rfl]
    symm
    rw [List.countP_eq_zero]
    intro a _
    simp
  · rw [if_neg hty, h ty]
    induction s.queue with
    | nil => rfl
    | cons x xs ihq =>
        by_cases hx : x.tag = ty
        · have hx0 : ¬ x.tag = ty0 := by
            rw [hx]
            exact hty
          simp [List.countP_cons, hx, hx0, hty, ihq]
        · simp [List.countP_cons, hx, ihq]

theorem fail_cycle_step {β : Type} (env : Env β) (times : Nat → ℚ) (doneTime : ℚ)
    (s : TaskManager) (t : Task)
    (hq : s.queue = [t]) (hl : s.locked = false) (hr : s.running = false)
    (hfail : env.runAction t.func = .error ())
    (hexp1 : times 0 ≤ t.expire_at)
    (hexp2 : s.last_execute_at + s.gap + s.bias / 2 ≤ t.expire_at)
    (hretry : t.retry < s.retry_count)
    (hcnt : s.counter t.tag = 1) :
    check_and_execute env times doneTime s =
      ({ s with queue := [{ t with rank := t.rank - 1, retry := t.retry + 1 }] },
        [ageTask t]) := by
  obtain ⟨q, c, la, g, bi, rc, lk, rn⟩ := s
  simp only at hq hl hr hcnt hexp2 hretry
  subst hq hl hr
  have hb1 : decide (t.expire_at < times 0) = false :=
    decide_eq_false (not_lt.mpr hexp1)
  have hb2 : decide (t.expire_at < la + g + bi / 2) = false :=
    decide_eq_false (not_lt.mpr hexp2)
  have hlim0 : ¬ get_task_limit t.tag ≤ 0 := by
    have h1 := one_le_get_task_limit t.tag
    omega
  simp only [check_and_execute, executeNext, executeNextAux, sortTasks, insertTask,
    popState, priority_aging, dispatchResult, TaskManager.add_task, ageTask,
    Task.is_expired, List.length_cons, List.length_nil, List.map_nil, List.map_cons,
    List.nil_append, hb1, hb2, hfail, hcnt, Bool.false_eq_true, if_false]
  rw [if_pos hretry]
  simp only [Nat.sub_self, Nat.zero_add, if_neg hlim0, eq_self_iff_true, if_true,
    if_pos rfl]
  refine Prod.ext ?_ rfl
  simp only
  congr 1
  funext x
  by_cases hx : x = t.tag
  · simp [hx, hcnt]
  · simp [hx]

theorem fail_cycle_discard {β : Type} (env : Env β) (times : Nat → ℚ) (doneTime : ℚ)
    (s : TaskManager) (t : Task)
    (hq : s.queue = [t]) (hl : s.locked = false) (hr : s.running = false)
    (hfail : env.runAction t.func = .error ())
    (hexp1 : times 0 ≤ t.expire_at)
    (hexp2 : s.last_execute_at + s.gap + s.bias / 2 ≤ t.expire_at)
    (hretry : ¬ t.retry < s.retry_count)
    (hcnt : s.counter t.tag = 1) :
    check_and_execute env times doneTime s =
      ({ s with
          queue := []
          counter := fun x => if x = t.tag then 0 else s.counter x },
        [ageTask t]) := by
  obtain ⟨q, c, la, g, bi, rc, lk, rn⟩ := s
  simp only at hq hl hr hcnt hexp2 hretry
  subst hq hl hr
  have hb1 : decide (t.expire_at < times 0) = false :=
    decide_eq_false (not_lt.mpr hexp1)
  have hb2 : decide (t.expire_at < la + g + bi / 2) = false :=
    decide_eq_false (not_lt.mpr hexp2)
  simp only [check_and_execute, executeNext, executeNextAux, sortTasks, insertTask,
    popState, priority_aging, dispatchResult, TaskManager.add_task, ageTask,
    Task.is_expired, List.length_cons, List.length_nil, List.map_nil, List.map_cons,
    List.nil_append, hb1, hb2, hfail, hcnt, Bool.false_eq_true, if_false]
  rw [if_neg hretry]

/-- C4: the invariant "each per-category counter equals the number of
queued tasks of that category" is preserved by every scheduler operation:
admission (`add_task` increments exactly once on success and not at all on
rejection), a full scheduling cycle (`check_and_execute`, covering the pop
decrement, expiry discards and retry re-admission), `clear`, and
`remove_by_type`. -/
theorem counter_matches_queue_invariant {β : Type} (env : Env β)
    (times : Nat → ℚ) (doneTime : ℚ) (s : TaskManager) (t : Task)
    (ty : TaskType) (hinv : counterInv s) :
    counterInv (s.add_task t).2 ∧
    counterInv (check_and_execute env times doneTime s).1 ∧
    counterInv s.clear ∧
    counterInv (s.remove_by_type ty).2 := by
  refine ⟨add_task_counterInv s t hinv, ?_, clear_counterInv s,
    remove_by_type_counterInv s ty hinv⟩
  unfold check_and_execute
  split_ifs with hl
  · exact hinv
  · exact executeNextAux_counterInv env times doneTime
      ({ s with locked := true, running := true }).queue.length 0
      { s with locked := true, running := true } hinv

/-- C4 witness: the invariant holds for a fresh manager and is preserved
when a Command task is admitted and a cycle runs on the result. -/
theorem counter_matches_queue_invariant_witness :
    counterInv ⟨[], fun _ => 0, 0, 2000, 3000, 2, false, false⟩ ∧
    counterInv ((TaskManager.add_task
      ⟨[], fun _ => 0, 0, 2000, 3000, 2, false, false⟩
      ⟨0, 1000, "", .CMD, -998, 0⟩).2) :=
  ⟨by intro ty; rfl,
   (counter_matches_queue_invariant (β := Unit) ⟨fun _ => .ok (), none⟩
      (fun _ => 0) 0 ⟨[], fun _ => 0, 0, 2000, 3000, 2, false, false⟩
      ⟨0, 1000, "", .CMD, -998, 0⟩ .CMD (by intro ty; rfl)).1⟩

theorem runCyclesFrom_succ {β : Type} (env : Env β) (times : Nat → Nat → ℚ)
    (dts : Nat → ℚ) (j n : Nat) (s : TaskManager) :
    runCyclesFrom env times dts j (n + 1) s =
      ((runCyclesFrom env times dts (j + 1) n
          (check_and_execute env (times j) (dts j) s).1).1,
        (check_and_execute env (times j) (dts j) s).2 ++
          (runCyclesFrom env times dts (j + 1) n
            (check_and_execute env (times j) (dts j) s).1).2) := rfl

theorem always_fail_drain {β : Type} (env : Env β) (times : Nat → Nat → ℚ)
    (dts : Nat → ℚ) :
    ∀ m j (s : TaskManager) (u : Task),
      s.queue = [u] → s.locked = false → s.running = false →
      env.runAction u.func = .error () →
      (∀ a b, times a b ≤ u.expire_at) →
      s.last_execute_at + s.gap + s.bias / 2 ≤ u.expire_at →
      s.counter u.tag = 1 →
      m = s.retry_count - u.retry →
      (runCyclesFrom env times dts j (m + 1) s).1.queue = [] ∧
      (runCyclesFrom env times dts j (m + 1) s).2.length = m + 1 := by
  intro m
  induction m with
  | zero =>
      intro j s u hq hl hr hfail hexp1 hexp2 hcnt hm
      have hretry : ¬ u.retry < s.retry_count := by omega
      have hstep := fail_cycle_discard env (times j) (dts j) s u hq hl hr hfail
        (hexp1 j 0) hexp2 hretry hcnt
      rw [runCyclesFrom_succ, hstep]
      exact ⟨rfl, rfl⟩
  | succ n ih =>
      intro j s u hq hl hr hfail hexp1 hexp2 hcnt hm
      have hretry : u.retry < s.retry_count := by omega
      have hstep := fail_cycle_step env (times j) (dts j) s u hq hl hr hfail
        (hexp1 j 0) hexp2 hretry hcnt
      have hih := ih (j + 1)
        { s with queue := [{ u with rank := u.rank - 1, retry := u.retry + 1 }] }
        { u with rank := u.rank - 1, retry := u.retry + 1 }
        rfl hl hr hfail hexp1 hexp2 hcnt
        (show n = s.retry_count - (u.retry + 1) by omega)
      rw [runCyclesFrom_succ, hstep]
      refine ⟨hih.1, ?_⟩
      simp only [List.length_append, hih.2, List.length_cons, List.length_nil,
        Nat.zero_add]
      omega

/-- C5: with a single always-failing task in the queue — never expiring,
and its category necessarily below the limit at each re-admission, since
the pop first returns the counter to 0 and every category limit is at
least 1 — a task starting at retry 0 is dispatched exactly
`retry_count + 1` times over `retry_count + 1` cycles, after which the
queue is empty; and a task whose retry count has already reached
`retry_count` is discarded by a failing cycle rather than re-enqueued:
dispatched once and gone. -/
theorem retry_bound {β : Type} (env : Env β) (times : Nat → Nat → ℚ) (dts : Nat → ℚ)
    (s : TaskManager) (t : Task)
    (hq : s.queue = [t]) (hl : s.locked = false) (hr : s.running = false)
    (hfail : env.runAction t.func = .error ())
    (hexp1 : ∀ a b, times a b ≤ t.expire_at)
    (hexp2 : s.last_execute_at + s.gap + s.bias / 2 ≤ t.expire_at)
    (hcnt : s.counter t.tag = 1) :
    (t.retry = 0 →
      (runCycles env times dts (s.retry_count + 1) s).2.length = s.retry_count + 1 ∧
      (runCycles env times dts (s.retry_count + 1) s).1.queue = []) ∧
    (¬ t.retry < s.retry_count →
      (check_and_execute env (times 0) (dts 0) s).1.queue = [] ∧
      (check_and_execute env (times 0) (dts 0) s).2 = [ageTask t]) := by
  constructor
  · intro h0
    have hd := always_fail_drain env times dts s.retry_count 0 s t hq hl hr hfail
      hexp1 hexp2 hcnt (by omega)
    exact ⟨hd.2, hd.1⟩
  · intro hge
    have hstep := fail_cycle_discard env (times 0) (dts 0) s t hq hl hr hfail
      (hexp1 0 0) hexp2 hge hcnt
    rw [hstep]
    exact ⟨rfl, rfl⟩

/-- C5 witness: an always-failing Command task with `retry_count = 2` is
dispatched exactly 3 times over 3 cycles and the queue ends empty. -/
theorem retry_bound_witness :
    (runCycles (β := Unit) ⟨fun _ => .error (), none⟩ (fun _ _ => 0) (fun _ => 0) 3
      ⟨[⟨0, 1000, "", .CMD, -998, 0⟩], fun ty => if ty = .CMD then 1 else 0,
        0, 0, 0, 2, false, false⟩).2.length = 3 ∧
    (runCycles (β := Unit) ⟨fun _ => .error (), none⟩ (fun _ _ => 0) (fun _ => 0) 3
      ⟨[⟨0, 1000, "", .CMD, -998, 0⟩], fun ty => if ty = .CMD then 1 else 0,
        0, 0, 0, 2, false, false⟩).1.queue = [] := by
  have h := (retry_bound (β := Unit) ⟨fun _ => .error (), none⟩ (fun _ _ => 0) (fun _ => 0)
    ⟨[⟨0, 1000, "", .CMD, -998, 0⟩], fun ty => if ty = .CMD then 1 else 0,
      0, 0, 0, 2, false, false⟩ ⟨0, 1000, "", .CMD, -998, 0⟩
    rfl rfl rfl rfl (fun _ _ => by norm_num) (by norm_num) rfl).1 rfl
  exact ⟨h.1, h.2⟩

/-- C9: invoking the scheduling cycle while the lock is held is a no-op:
the state is returned unchanged (no sorting, aging, popping or counter
update took place) and no task is dispatched. -/
theorem check_and_execute_mutual_exclusion {β : Type} (env : Env β)
    (times : Nat → ℚ) (doneTime : ℚ) (s : TaskManager) (h : s.locked = true) :
    check_and_execute env times doneTime s = (s, []) := by
  simp [check_and_execute, h]

/-- C9 witness: a locked manager holding one task is returned untouched,
with an empty dispatch log. -/
theorem check_and_execute_mutual_exclusion_witness :
    check_and_execute ⟨fun _ => .ok (), none⟩ (fun _ => 0) 0
      ⟨[⟨0, 1000, "", .CMD, 1, 0⟩], fun _ => 0, 0, 2000, 3000, 2, true, true⟩ =
      (⟨[⟨0, 1000, "", .CMD, 1, 0⟩], fun _ => 0, 0, 2000, 3000, 2, true, true⟩, []) :=
  check_and_execute_mutual_exclusion ⟨fun _ => .ok (), none⟩ (fun _ => 0) 0
    ⟨[⟨0, 1000, "", .CMD, 1, 0⟩], fun _ => 0, 0, 2000, 3000, 2, true, true⟩ rfl

end Isekaiz
